import Mathlib

/-!
Verification of the CSV-to-SQLite importer (csv_to_sqlite.py) and the
county-data query service (index.py / api/index.py).

The Python source is shallowly embedded: strings are Lean String values,
Python sets are lists, the CSV file is modelled as its parsed rows
(a list of lists of cell strings), and SQLite values are an inductive type.
Character-level operations (strip, lower, the two regex substitutions) are
modelled over ASCII as used by the identifiers and tokens involved; Python
performs the same operations over full Unicode, which never changes the
properties proved here because every non-ASCII character is outside the
identifier class [A-Za-z0-9_] and outside the digit class.
-/

namespace CsvToSqlite

/-- Characters removed by Python str.strip() with no argument (ASCII whitespace;
Python also strips a few rare Unicode space characters). -/
def pyIsSpace (c : Char) : Bool :=
  c = ' ' || c = '\t' || c = '\n' || c = '\r' || c = '\x0b' || c = '\x0c'

/-- Python str.strip(): drop leading and trailing whitespace. -/
def pyStripChars (l : List Char) : List Char :=
  ((l.dropWhile pyIsSpace).reverse.dropWhile pyIsSpace).reverse

/-- Python str.strip() on a String. -/
def pyStrip (s : String) : String := String.mk (pyStripChars s.data)

/-- Python str.lower() (ASCII case mapping, the only case used by the program). -/
def pyLower (s : String) : String := String.mk (s.data.map Char.toLower)

/-- Python str.strip(ch): drop leading and trailing occurrences of one character. -/
def stripChar (ch : Char) (l : List Char) : List Char :=
  ((l.dropWhile (· = ch)).reverse.dropWhile (· = ch)).reverse

/-- Membership in the character class [A-Za-z0-9_] of IDENTIFIER_CLEAN_RE. -/
def isWordChar (c : Char) : Bool := c.isAlpha || c.isDigit || c = '_'

/-- IDENTIFIER_CLEAN_RE.sub("_", s): replace each maximal run of characters
outside [A-Za-z0-9_] by a single underscore. The Boolean flag records whether
the previous character was inside such a run. -/
def cleanRunAux : Bool → List Char → List Char
  | _, [] => []
  | inRun, c :: cs =>
    if isWordChar c then c :: cleanRunAux false cs
    else if inRun then cleanRunAux true cs
    else '_' :: cleanRunAux true cs

/-- re.sub of underscore runs to a single underscore (the r-string pattern of
one-or-more underscores in the source). The flag records whether the previous
character was an underscore. -/
def collapseUnd : Bool → List Char → List Char
  | _, [] => []
  | prev, c :: cs =>
    if c = '_' then
      (if prev then collapseUnd true cs else '_' :: collapseUnd true cs)
    else c :: collapseUnd false cs

/-- Decimal digits of n, most significant first, by repeated division.
Fuel-bounded structural recursion; any fuel at least n computes all digits. -/
def natStrAux : Nat → Nat → List Char
  | 0, _ => []
  | fuel + 1, n =>
    if n = 0 then [] else natStrAux fuel (n / 10) ++ [Nat.digitChar (n % 10)]

/-- Python str() of a natural number. -/
def natStr (n : Nat) : String := if n = 0 then "0" else String.mk (natStrAux n n)

/-- SQLITE_RESERVED_KEYWORDS from the source, verbatim. -/
def SQLITE_RESERVED_KEYWORDS : List String :=
  ["abort", "action", "add", "after", "all", "alter", "analyze", "and", "as", "asc",
   "attach", "autoincrement", "before", "begin", "between", "by", "cascade", "case",
   "cast", "check", "collate", "column", "commit", "conflict", "constraint", "create",
   "cross", "current_date", "current_time", "current_timestamp", "database", "default",
   "deferrable", "deferred", "delete", "desc", "detach", "distinct", "drop", "each",
   "else", "end", "escape", "except", "exclusive", "exists", "explain", "fail", "for",
   "foreign", "from", "full", "globa", "group", "having", "if", "ignore", "immediate",
   "in", "index", "indexed", "initially", "inner", "insert", "instead", "intersect",
   "into", "is", "isnull", "join", "key", "left", "like", "limit", "match", "natural",
   "no", "not", "notnull", "null", "of", "offset", "on", "or", "order", "outer",
   "plan", "pragma", "primary", "query", "raise", "recursive", "references", "regexp",
   "reindex", "release", "rename", "replace", "restrict", "right", "rollback", "row",
   "savepoint", "select", "set", "table", "temporary", "then", "to", "transaction",
   "trigger", "union", "unique", "update", "using", "vacuum", "values", "view", "virtual",
   "when", "where", "without",
   "integer", "real", "text", "blob"]

/-- Value of the local variable cleaned in sanitize_identifier just before the
emptiness check: byte-order-mark removal, strip, lower, replacement of runs of
characters outside the identifier class by an underscore, strip of leading and
trailing underscores, collapse of underscore runs. -/
def cleanedOf (raw : Option String) : String :=
  let text := pyStripChars ((raw.getD "").data.filter (· ≠ '\uFEFF'))
  let lowered := text.map Char.toLower
  String.mk (collapseUnd false (stripChar '_' (cleanRunAux false lowered)))

/-- Python expression cleaned[0].isdigit() (total model; the source only
evaluates it on a nonempty string). -/
def headIsDigit (s : String) : Bool :=
  match s.data with
  | [] => false
  | c :: _ => c.isDigit

/-- Step of sanitize_identifier substituting the fallback for an empty cleaned
name. -/
def stepEmpty (fb : String) (c : String) : String := if c = "" then fb else c

/-- Step of sanitize_identifier prefixing the fallback when the cleaned name
starts with a digit. -/
def stepDigit (fb : String) (c : String) : String :=
  if headIsDigit c then fb ++ "_" ++ c else c

/-- Step of sanitize_identifier appending an underscore to a reserved keyword. -/
def stepReserved (c : String) : String :=
  if c ∈ SQLITE_RESERVED_KEYWORDS then c ++ "_" else c

/-- Body of sanitize_identifier up to but excluding the used-set loop. -/
def sanitizeBase (raw : Option String) (fb : String) : String :=
  stepReserved (stepDigit fb (stepEmpty fb (cleanedOf raw)))

/-- Candidate tried by the while-loop of sanitize_identifier for suffix k. -/
def suffixed (base : String) (k : Nat) : String := base ++ "_" ++ natStr k

/-- The while-loop of sanitize_identifier: try base_1, base_2, and so on until a
name outside used is found. Fuel-bounded; fuel exceeding the number of used
names always finds a free candidate (proved below). -/
def dedupFrom (base : String) (used : List String) : Nat → Nat → String
  | 0, k => suffixed base k
  | fuel + 1, k =>
    if suffixed base k ∈ used then dedupFrom base used fuel (k + 1)
    else suffixed base k

/-- The name chosen by the used-set loop of sanitize_identifier. -/
def pickName (base : String) (used : List String) : String :=
  if base ∈ used then dedupFrom base used (used.length + 1) 1 else base

/-- sanitize_identifier called with a used set, returning the chosen name and
the grown set (the Python code mutates the set in place). -/
def sanitize_identifier_used (raw : Option String) (fb : String) (used : List String) :
    String × List String :=
  (pickName (sanitizeBase raw fb) used, pickName (sanitizeBase raw fb) used :: used)

/-- sanitize_identifier called with used=None (the table-name call site). -/
def sanitize_identifier (raw : Option String) (fb : String) : String :=
  sanitizeBase raw fb

/-- Loop body of sanitize_headers: positional index i gives fallback col_(i+1),
and one used set is threaded through all headers. -/
def sanitizeHeadersGo : Nat → List String → List String → List String
  | _, _, [] => []
  | i, used, h :: t =>
    (sanitize_identifier_used (some h) ("col_" ++ natStr (i + 1)) used).1 ::
      sanitizeHeadersGo (i + 1)
        (sanitize_identifier_used (some h) ("col_" ++ natStr (i + 1)) used).2 t

/-- sanitize_headers from the source. -/
def sanitize_headers (headers : List String) : List String :=
  sanitizeHeadersGo 0 [] headers

/-- Lowercase identifier tail class [a-z0-9_]. -/
def isIdentTailChar (c : Char) : Bool := c.isLower || c.isDigit || c = '_'

/-- Character-list form of the identifier pattern: nonempty, first character a
lowercase letter or underscore, all characters in [a-z0-9_]. -/
def isValidIdentChars : List Char → Bool
  | [] => false
  | c :: cs => (c.isLower || c = '_') && (c :: cs).all isIdentTailChar

/-- The spec pattern of a safe identifier: nonempty, first character in the
class of a lowercase letter or underscore, all characters in [a-z0-9_]. -/
def isValidIdent (s : String) : Bool := isValidIdentChars s.data

theorem char_toNat_ofNat_valid {m : Nat} (h : m.isValidChar) : (Char.ofNat m).toNat = m := by
  rw [Char.ofNat, dif_pos h]
  rfl

theorem char_isUpper_iff (c : Char) : c.isUpper = true ↔ 65 ≤ c.toNat ∧ c.toNat ≤ 90 := by
  simp only [Char.isUpper, Bool.and_eq_true, decide_eq_true_eq, ge_iff_le, UInt32.le_def,
    BitVec.le_def]
  constructor
  · rintro ⟨h1, h2⟩
    exact ⟨h1, h2⟩
  · rintro ⟨h1, h2⟩
    exact ⟨h1, h2⟩

theorem toLower_not_upper (c : Char) : (Char.toLower c).isUpper = false := by
  unfold Char.toLower
  simp only []
  by_cases h : 65 ≤ c.toNat ∧ c.toNat ≤ 90
  case pos =>
    rw [if_pos (by exact ⟨h.1, h.2⟩)]
    have hv : (c.toNat + 32).isValidChar := Or.inl (by omega)
    have ht : (Char.ofNat (c.toNat + 32)).toNat = c.toNat + 32 := char_toNat_ofNat_valid hv
    rw [Bool.eq_false_iff]
    intro hu
    rw [char_isUpper_iff] at hu
    omega
  case neg =>
    rw [if_neg (by intro hc; exact h ⟨hc.1, hc.2⟩)]
    rw [Bool.eq_false_iff]
    intro hu
    rw [char_isUpper_iff] at hu
    exact h hu


theorem isIdentTailChar_of_word (c : Char) (hw : isWordChar c = true) (hu : c.isUpper = false) :
    isIdentTailChar c = true := by
  simp only [isWordChar, Char.isAlpha, Bool.or_eq_true] at hw
  simp only [isIdentTailChar, Bool.or_eq_true]
  rcases hw with (h | h) | h
  · rcases h with h | h
    · rw [hu] at h; exact absurd h (by simp)
    · exact Or.inl (Or.inl h)
  · exact Or.inl (Or.inr h)
  · exact Or.inr h

theorem mem_cleanRunAux (l : List Char) (hl : ∀ c ∈ l, c.isUpper = false) :
    ∀ (b : Bool), ∀ c ∈ cleanRunAux b l, isIdentTailChar c = true := by
  induction l with
  | nil => intro b c hc; simp [cleanRunAux] at hc
  | cons x xs ih =>
    intro b c hc
    have hx := hl x (List.mem_cons_self x xs)
    have hxs : ∀ c ∈ xs, c.isUpper = false := fun c hc => hl c (List.mem_cons_of_mem _ hc)
    rw [cleanRunAux] at hc
    by_cases hw : isWordChar x = true
    · rw [if_pos hw] at hc
      rcases List.mem_cons.mp hc with h | h
      · subst h; exact isIdentTailChar_of_word c hw hx
      · exact ih hxs false c h
    · rw [if_neg hw] at hc
      by_cases hb : b = true
      · subst hb; rw [if_pos rfl] at hc; exact ih hxs true c hc
      · have hb' : b = false := by revert hb; cases b <;> simp
        subst hb'
        rw [if_neg (by simp)] at hc
        rcases List.mem_cons.mp hc with h | h
        · subst h; rfl
        · exact ih hxs true c h

theorem mem_stripChar (ch : Char) (l : List Char) (c : Char) (hc : c ∈ stripChar ch l) :
    c ∈ l := by
  unfold stripChar at hc
  rw [List.mem_reverse] at hc
  have h1 := (List.dropWhile_sublist (l := (l.dropWhile (· = ch)).reverse) (· = ch)).mem hc
  rw [List.mem_reverse] at h1
  exact (List.dropWhile_sublist (· = ch)).mem h1

theorem mem_collapseUnd (l : List Char) :
    ∀ (b : Bool), ∀ c ∈ collapseUnd b l, c = '_' ∨ c ∈ l := by
  induction l with
  | nil => intro b c hc; simp [collapseUnd] at hc
  | cons x xs ih =>
    intro b c hc
    rw [collapseUnd] at hc
    by_cases hx : x = '_'
    · rw [if_pos hx] at hc
      by_cases hb : b = true
      · subst hb; simp only [if_pos rfl] at hc
        rcases ih true c hc with h | h
        · exact Or.inl h
        · exact Or.inr (List.mem_cons_of_mem _ h)
      · have hb' : b = false := by revert hb; cases b <;> simp
        subst hb'
        simp only [Bool.false_eq_true, if_false] at hc
        rcases List.mem_cons.mp hc with h | h
        · exact Or.inl h
        · rcases ih true c h with h2 | h2
          · exact Or.inl h2
          · exact Or.inr (List.mem_cons_of_mem _ h2)
    · rw [if_neg hx] at hc
      rcases List.mem_cons.mp hc with h | h
      · exact Or.inr (List.mem_cons.mpr (Or.inl h))
      · rcases ih false c h with h2 | h2
        · exact Or.inl h2
        · exact Or.inr (List.mem_cons_of_mem _ h2)

theorem cleanedOf_chars (raw : Option String) :
    ∀ c ∈ (cleanedOf raw).data, isIdentTailChar c = true := by
  intro c hc
  unfold cleanedOf at hc
  simp only at hc
  rcases mem_collapseUnd _ false c hc with h | h
  · subst h; rfl
  · have h2 := mem_stripChar '_' _ c h
    apply mem_cleanRunAux _ _ false c h2
    intro d hd
    rcases List.mem_map.mp hd with ⟨e, _, he⟩
    subst he
    exact toLower_not_upper e

theorem natStrAux_eq_digits : ∀ (fuel n : Nat), n ≤ fuel →
    natStrAux fuel n = ((Nat.digits 10 n).map Nat.digitChar).reverse := by
  intro fuel
  induction fuel with
  | zero =>
    intro n hn
    have : n = 0 := Nat.le_zero.mp hn
    subst this
    simp [natStrAux]
  | succ fuel ih =>
    intro n hn
    by_cases h0 : n = 0
    · subst h0; simp [natStrAux]
    · rw [natStrAux, if_neg h0]
      rw [Nat.digits_def' (by norm_num : (1:Nat) < 10) (Nat.pos_of_ne_zero h0)]
      rw [List.map_cons, List.reverse_cons]
      have hdiv : n / 10 ≤ fuel := by
        have := Nat.div_lt_self (Nat.pos_of_ne_zero h0) (by norm_num : (1:Nat) < 10)
        omega
      rw [ih (n / 10) hdiv]

/-- Decode a decimal digit character; left inverse of Nat.digitChar below 10. -/
def digitVal (c : Char) : Nat := c.toNat - 48

theorem digitVal_digitChar : ∀ d : Nat, d < 10 → digitVal (Nat.digitChar d) = d := by
  decide

theorem digitChar_isDigit : ∀ d : Nat, d < 10 → (Nat.digitChar d).isDigit = true := by
  decide

theorem map_digitVal_digits (l : List Nat) (hl : ∀ d ∈ l, d < 10) :
    (l.map (fun d => digitVal (Nat.digitChar d))) = l := by
  induction l with
  | nil => rfl
  | cons x xs ih =>
    rw [List.map_cons, digitVal_digitChar x (hl x (List.mem_cons_self x xs)),
      ih (fun d hd => hl d (List.mem_cons_of_mem _ hd))]

theorem digits_map_digitChar_inj {m n : Nat}
    (h : (Nat.digits 10 m).map Nat.digitChar = (Nat.digits 10 n).map Nat.digitChar) :
    m = n := by
  have h2 := congrArg (List.map digitVal) h
  rw [List.map_map, List.map_map] at h2
  have hm := map_digitVal_digits (Nat.digits 10 m)
    (fun d hd => Nat.digits_lt_base (by norm_num) hd)
  have hn := map_digitVal_digits (Nat.digits 10 n)
    (fun d hd => Nat.digits_lt_base (by norm_num) hd)
  rw [Function.comp_def, hm, hn] at h2
  have h3 := congrArg (Nat.ofDigits 10) h2
  rwa [Nat.ofDigits_digits, Nat.ofDigits_digits] at h3

theorem natStr_eq_digits (n : Nat) (h0 : n ≠ 0) :
    (natStr n).data = ((Nat.digits 10 n).map Nat.digitChar).reverse := by
  unfold natStr
  rw [if_neg h0]
  exact natStrAux_eq_digits n n (le_refl n)

theorem natStr_inj : Function.Injective natStr := by
  intro m n h
  by_cases hm : m = 0 <;> by_cases hn : n = 0
  · omega
  · exfalso
    have hd := congrArg String.data h
    rw [natStr_eq_digits n hn] at hd
    have hz : ("0" : String).data = ['0'] := rfl
    unfold natStr at hd
    rw [if_pos hm, hz] at hd
    have h1 : (Nat.digits 10 n).map Nat.digitChar = ['0'] := by
      have h2 := congrArg List.reverse hd
      simp only [List.reverse_reverse] at h2
      rw [← h2]; rfl
    have h4 := congrArg (List.map digitVal) h1
    rw [List.map_map, Function.comp_def] at h4
    rw [map_digitVal_digits _ (fun d hd => Nat.digits_lt_base (by norm_num) hd)] at h4
    have h5 : Nat.digits 10 n = [0] := by rw [h4]; rfl
    have h6 := congrArg (Nat.ofDigits 10) h5
    rw [Nat.ofDigits_digits] at h6
    have h7 : (Nat.ofDigits 10 [0] : Nat) = 0 := by simp [Nat.ofDigits]
    rw [h7] at h6
    exact hn h6
  · exfalso
    have hd := congrArg String.data h
    rw [natStr_eq_digits m hm] at hd
    have hz : ("0" : String).data = ['0'] := rfl
    unfold natStr at hd
    rw [if_pos hn, hz] at hd
    have h1 : (Nat.digits 10 m).map Nat.digitChar = ['0'] := by
      have h2 := congrArg List.reverse hd
      simp only [List.reverse_reverse] at h2
      rw [h2]; rfl
    have h4 := congrArg (List.map digitVal) h1
    rw [List.map_map, Function.comp_def] at h4
    rw [map_digitVal_digits _ (fun d hd => Nat.digits_lt_base (by norm_num) hd)] at h4
    have h5 : Nat.digits 10 m = [0] := by rw [h4]; rfl
    have h6 := congrArg (Nat.ofDigits 10) h5
    rw [Nat.ofDigits_digits] at h6
    have h7 : (Nat.ofDigits 10 [0] : Nat) = 0 := by simp [Nat.ofDigits]
    rw [h7] at h6
    exact hm h6
  · have hd := congrArg String.data h
    rw [natStr_eq_digits m hm, natStr_eq_digits n hn] at hd
    have h2 := congrArg List.reverse hd
    simp only [List.reverse_reverse] at h2
    exact digits_map_digitChar_inj h2

theorem natStr_chars (n : Nat) : ∀ c ∈ (natStr n).data, c.isDigit = true := by
  intro c hc
  by_cases h0 : n = 0
  · subst h0
    have hz : (natStr 0).data = ['0'] := rfl
    rw [hz] at hc
    rcases List.mem_singleton.mp hc with h
    subst h; rfl
  · rw [natStr_eq_digits n h0, List.mem_reverse] at hc
    rcases List.mem_map.mp hc with ⟨d, hd, he⟩
    subst he
    exact digitChar_isDigit d (Nat.digits_lt_base (by norm_num) hd)

theorem natStr_ne_empty (n : Nat) : (natStr n).data ≠ [] := by
  by_cases h0 : n = 0
  · subst h0
    have hz : (natStr 0).data = ['0'] := rfl
    rw [hz]; simp
  · rw [natStr_eq_digits n h0]
    simp only [ne_eq, List.reverse_eq_nil_iff, List.map_eq_nil_iff]
    exact Nat.digits_ne_nil_iff_ne_zero.mpr h0

theorem strMkData (s : String) : String.mk s.data = s := by
  cases s
  rfl

theorem str_eq_empty_iff (s : String) : s = "" ↔ s.data = [] := by
  constructor
  · intro h; subst h; rfl
  · intro h
    rw [← strMkData s, h]

theorem suffixed_inj (base : String) : Function.Injective (suffixed base) := by
  intro a b h
  apply natStr_inj
  have hd := congrArg String.data h
  simp only [suffixed, String.data_append] at hd
  have h2 := List.append_cancel_left hd
  rw [← strMkData (natStr a), ← strMkData (natStr b), h2]

theorem dedupFrom_form (base : String) (used : List String) :
    ∀ fuel k, ∃ j, dedupFrom base used fuel k = suffixed base j := by
  intro fuel
  induction fuel with
  | zero => intro k; exact ⟨k, rfl⟩
  | succ fuel ih =>
    intro k
    rw [dedupFrom]
    by_cases hk : suffixed base k ∈ used
    · rw [if_pos hk]; exact ih (k + 1)
    · rw [if_neg hk]; exact ⟨k, rfl⟩

theorem dedupFrom_not_mem (base : String) (used : List String) :
    ∀ fuel k, (∃ j, k ≤ j ∧ j < k + fuel ∧ suffixed base j ∉ used) →
      dedupFrom base used fuel k ∉ used := by
  intro fuel
  induction fuel with
  | zero =>
    intro k hk
    rcases hk with ⟨j, h1, h2, _⟩
    omega
  | succ fuel ih =>
    intro k hk
    rcases hk with ⟨j, h1, h2, h3⟩
    rw [dedupFrom]
    by_cases hmem : suffixed base k ∈ used
    · rw [if_pos hmem]
      apply ih (k + 1)
      refine ⟨j, ?_, ?_, h3⟩
      · rcases Nat.eq_or_lt_of_le h1 with he | hl
        · exfalso; subst he; exact h3 hmem
        · omega
      · omega
    · rw [if_neg hmem]
      exact hmem

theorem exists_free_suffix (base : String) (used : List String) :
    ∃ j, 1 ≤ j ∧ j < 1 + (used.length + 1) ∧ suffixed base j ∉ used := by
  by_contra hc
  push_neg at hc
  have hsub : (List.range' 1 (used.length + 1)).map (suffixed base) ⊆ used := by
    intro x hx
    rcases List.mem_map.mp hx with ⟨j, hj, rfl⟩
    rw [List.mem_range'] at hj
    rcases hj with ⟨i, hi, rfl⟩
    exact hc (1 + 1 * i) (by omega) (by omega)
  have hnd : ((List.range' 1 (used.length + 1)).map (suffixed base)).Nodup :=
    (List.nodup_range' 1 (used.length + 1)).map (suffixed_inj base)
  have hle := (List.subperm_of_subset hnd hsub).length_le
  rw [List.length_map, List.length_range'] at hle
  omega

theorem pickName_not_mem (base : String) (used : List String) :
    pickName base used ∉ used := by
  unfold pickName
  by_cases hb : base ∈ used
  · rw [if_pos hb]
    apply dedupFrom_not_mem
    rcases exists_free_suffix base used with ⟨j, h1, h2, h3⟩
    exact ⟨j, h1, h2, h3⟩
  · rw [if_neg hb]
    exact hb

theorem sanitize_identifier_used_not_mem (raw : Option String) (fb : String)
    (used : List String) : (sanitize_identifier_used raw fb used).1 ∉ used :=
  pickName_not_mem (sanitizeBase raw fb) used

theorem sanitize_identifier_used_snd (raw : Option String) (fb : String)
    (used : List String) :
    (sanitize_identifier_used raw fb used).2 =
      (sanitize_identifier_used raw fb used).1 :: used := rfl

set_option maxRecDepth 8192 in
theorem reserved_digit_free :
    ∀ s ∈ SQLITE_RESERVED_KEYWORDS, ∀ c ∈ s.data, c.isDigit = false := by
  decide

theorem not_reserved_of_digit (s : String) (c : Char) (hc : c ∈ s.data)
    (hd : c.isDigit = true) : s ∉ SQLITE_RESERVED_KEYWORDS := by
  intro hm
  have := reserved_digit_free s hm c hc
  rw [hd] at this
  exact Bool.true_eq_false.mp this

set_option maxRecDepth 8192 in
theorem reserved_append_underscore :
    ∀ s ∈ SQLITE_RESERVED_KEYWORDS, (s ++ "_") ∉ SQLITE_RESERVED_KEYWORDS := by
  decide

/-- All characters of a string lie in the identifier tail class. -/
def AllTail (s : String) : Prop := ∀ c ∈ s.data, isIdentTailChar c = true

theorem isValidIdentChars_append (la lb : List Char) (ha : isValidIdentChars la = true)
    (hb : ∀ c ∈ lb, isIdentTailChar c = true) : isValidIdentChars (la ++ lb) = true := by
  cases la with
  | nil => exact absurd ha (by simp [isValidIdentChars])
  | cons c cs =>
    rw [List.cons_append]
    have ha2 : (c.isLower || c = '_') = true ∧ ∀ d ∈ c :: cs, isIdentTailChar d = true := by
      have h0 := ha
      unfold isValidIdentChars at h0
      rw [Bool.and_eq_true, List.all_eq_true] at h0
      exact h0
    show isValidIdentChars (c :: (cs ++ lb)) = true
    unfold isValidIdentChars
    rw [Bool.and_eq_true, List.all_eq_true]
    refine ⟨ha2.1, ?_⟩
    intro d hd
    rcases List.mem_cons.mp hd with h | h
    · subst h; exact ha2.2 d (List.mem_cons_self _ _)
    · rcases List.mem_append.mp h with h2 | h2
      · exact ha2.2 d (List.mem_cons_of_mem _ h2)
      · exact hb d h2

theorem isValidIdent_append (a b : String) (ha : isValidIdent a = true)
    (hb : AllTail b) : isValidIdent (a ++ b) = true := by
  unfold isValidIdent at ha ⊢
  rw [String.data_append]
  exact isValidIdentChars_append a.data b.data ha hb

theorem valid_of_head_not_digit (s : String) (hne : s ≠ "") (hall : AllTail s)
    (hhd : headIsDigit s = false) : isValidIdent s = true := by
  unfold isValidIdent
  cases h : s.data with
  | nil => exact absurd ((str_eq_empty_iff s).mpr h) hne
  | cons c cs =>
    have hc := hall c (h ▸ List.mem_cons_self c cs)
    have hcd : c.isDigit = false := by
      unfold headIsDigit at hhd
      rw [h] at hhd
      exact hhd
    simp only [isValidIdentChars, Bool.and_eq_true, List.all_eq_true]
    constructor
    · simp only [isIdentTailChar, Bool.or_eq_true] at hc
      rcases hc with (h1 | h1) | h1
      · simp [h1]
      · rw [h1] at hcd; exact absurd hcd (by simp)
      · simp [h1]
    · intro d hd
      exact hall d (h ▸ hd)

theorem allTail_natStr (k : Nat) : AllTail (natStr k) := by
  intro c hc
  have := natStr_chars k c hc
  simp [isIdentTailChar, this]

theorem allTail_underscore : AllTail "_" := by
  intro c hc
  have h : ("_" : String).data = ['_'] := rfl
  rw [h] at hc
  have h2 := List.mem_singleton.mp hc
  subst h2
  rfl

theorem allTail_cleanedOf (raw : Option String) : AllTail (cleanedOf raw) :=
  cleanedOf_chars raw

/-- The two fallbacks the program supplies: data for the table name, col_(i+1)
for header i. -/
def IsProgramFallback (fb : String) : Prop :=
  fb = "data" ∨ ∃ i : Nat, fb = "col_" ++ natStr (i + 1)

theorem fallback_valid (fb : String) (hfb : IsProgramFallback fb) :
    isValidIdent fb = true := by
  rcases hfb with rfl | ⟨i, rfl⟩
  · decide
  · apply isValidIdent_append
    · decide
    · exact allTail_natStr (i + 1)

theorem fallback_head_not_digit (fb : String) (hfb : IsProgramFallback fb) :
    headIsDigit fb = false := by
  rcases hfb with rfl | ⟨i, rfl⟩
  · decide
  · unfold headIsDigit
    rw [String.data_append]
    have h : ("col_" : String).data = 'c' :: ('o' :: 'l' :: '_' :: []) := rfl
    rw [h, List.cons_append]
    show Char.isDigit 'c' = false
    decide

theorem fallback_not_reserved (fb : String) (hfb : IsProgramFallback fb) :
    fb ∉ SQLITE_RESERVED_KEYWORDS := by
  rcases hfb with rfl | ⟨i, rfl⟩
  · decide
  · cases hd : (natStr (i + 1)).data with
    | nil => exact absurd hd (natStr_ne_empty (i + 1))
    | cons c cs =>
      apply not_reserved_of_digit _ c
      · rw [String.data_append, hd]
        exact List.mem_append.mpr (Or.inr (List.mem_cons_self _ _))
      · exact natStr_chars (i + 1) c (hd ▸ List.mem_cons_self c cs)

theorem sanitizeBase_good (raw : Option String) (fb : String) (hfb : IsProgramFallback fb) :
    isValidIdent (sanitizeBase raw fb) = true ∧
    sanitizeBase raw fb ∉ SQLITE_RESERVED_KEYWORDS := by
  unfold sanitizeBase stepEmpty
  by_cases h1 : cleanedOf raw = ""
  · rw [if_pos h1]
    unfold stepDigit
    rw [if_neg (by rw [fallback_head_not_digit fb hfb]; exact Bool.false_ne_true)]
    unfold stepReserved
    rw [if_neg (fallback_not_reserved fb hfb)]
    exact ⟨fallback_valid fb hfb, fallback_not_reserved fb hfb⟩
  · rw [if_neg h1]
    by_cases h2 : headIsDigit (cleanedOf raw) = true
    · unfold stepDigit
      rw [if_pos h2]
      cases hd : (cleanedOf raw).data with
      | nil => exact absurd ((str_eq_empty_iff _).mpr hd) h1
      | cons c cs =>
        have hcd : c.isDigit = true := by
          unfold headIsDigit at h2
          rw [hd] at h2
          exact h2
        have hmem : c ∈ (fb ++ "_" ++ cleanedOf raw).data := by
          rw [String.data_append]
          exact List.mem_append.mpr (Or.inr (hd ▸ List.mem_cons_self c cs))
        have hnr : (fb ++ "_" ++ cleanedOf raw) ∉ SQLITE_RESERVED_KEYWORDS :=
          not_reserved_of_digit _ c hmem hcd
        unfold stepReserved
        rw [if_neg hnr]
        refine ⟨?_, hnr⟩
        apply isValidIdent_append
        · apply isValidIdent_append
          · exact fallback_valid fb hfb
          · exact allTail_underscore
        · exact allTail_cleanedOf raw
    · unfold stepDigit
      rw [if_neg h2]
      have hval : isValidIdent (cleanedOf raw) = true :=
        valid_of_head_not_digit _ h1 (allTail_cleanedOf raw)
          (by revert h2; cases headIsDigit (cleanedOf raw) <;> simp)
      unfold stepReserved
      by_cases h3 : cleanedOf raw ∈ SQLITE_RESERVED_KEYWORDS
      · rw [if_pos h3]
        exact ⟨isValidIdent_append _ _ hval allTail_underscore,
          reserved_append_underscore _ h3⟩
      · rw [if_neg h3]
        exact ⟨hval, h3⟩

theorem suffixed_good (base : String) (j : Nat) (hb : isValidIdent base = true) :
    isValidIdent (suffixed base j) = true ∧
    suffixed base j ∉ SQLITE_RESERVED_KEYWORDS := by
  constructor
  · unfold suffixed
    apply isValidIdent_append
    · exact isValidIdent_append _ _ hb allTail_underscore
    · exact allTail_natStr j
  · unfold suffixed
    cases hd : (natStr j).data with
    | nil => exact absurd hd (natStr_ne_empty j)
    | cons c cs =>
      apply not_reserved_of_digit _ c
      · rw [String.data_append]
        exact List.mem_append.mpr (Or.inr (hd ▸ List.mem_cons_self c cs))
      · exact natStr_chars j c (hd ▸ List.mem_cons_self c cs)

/-- C4: for every raw header value (including the absent case) and every
fallback the program supplies (data, or col_i for a positive index i),
sanitize_identifier returns a nonempty identifier matching the lowercase
identifier pattern and never a reserved keyword; the same holds for the
name chosen when a used set is supplied. -/
theorem C4_sanitize_identifier_always_safe (raw : Option String) (fb : String)
    (used : List String) (hfb : IsProgramFallback fb) :
    (isValidIdent (sanitize_identifier raw fb) = true ∧
      sanitize_identifier raw fb ∉ SQLITE_RESERVED_KEYWORDS) ∧
    (isValidIdent (sanitize_identifier_used raw fb used).1 = true ∧
      (sanitize_identifier_used raw fb used).1 ∉ SQLITE_RESERVED_KEYWORDS) := by
  have hb := sanitizeBase_good raw fb hfb
  refine ⟨hb, ?_⟩
  show isValidIdent (pickName (sanitizeBase raw fb) used) = true ∧
    pickName (sanitizeBase raw fb) used ∉ SQLITE_RESERVED_KEYWORDS
  unfold pickName
  by_cases hu : sanitizeBase raw fb ∈ used
  · rw [if_pos hu]
    rcases dedupFrom_form (sanitizeBase raw fb) used (used.length + 1) 1 with ⟨j, hj⟩
    rw [hj]
    exact suffixed_good _ j hb.1
  · rw [if_neg hu]
    exact hb

/-- C4 witness at a concrete call. -/
theorem C4_sanitize_identifier_always_safe_witness :
    (isValidIdent (sanitize_identifier (some "123 drop table") "data") = true ∧
      sanitize_identifier (some "123 drop table") "data" ∉ SQLITE_RESERVED_KEYWORDS) ∧
    (isValidIdent (sanitize_identifier_used (some "123 drop table") "data" ["x"]).1 = true ∧
      (sanitize_identifier_used (some "123 drop table") "data" ["x"]).1 ∉
        SQLITE_RESERVED_KEYWORDS) :=
  C4_sanitize_identifier_always_safe (some "123 drop table") "data" ["x"] (Or.inl rfl)

theorem sanitizeHeadersGo_spec : ∀ (t : List String) (i : Nat) (used : List String),
    (sanitizeHeadersGo i used t).Nodup ∧ ∀ x ∈ sanitizeHeadersGo i used t, x ∉ used := by
  intro t
  induction t with
  | nil =>
    intro i used
    constructor
    · exact List.nodup_nil
    · intro x hx
      simp [sanitizeHeadersGo] at hx
  | cons h t ih =>
    intro i used
    rw [sanitizeHeadersGo]
    constructor
    · rw [List.nodup_cons]
      constructor
      · intro hmem
        have h2 := (ih (i + 1) _).2 _ hmem
        rw [sanitize_identifier_used_snd] at h2
        exact h2 (List.mem_cons_self _ _)
      · exact (ih (i + 1) _).1
    · intro x hx
      rcases List.mem_cons.mp hx with h1 | h1
      · subst h1
        exact sanitize_identifier_used_not_mem _ _ _
      · intro hxu
        have h2 := (ih (i + 1) _).2 x h1
        rw [sanitize_identifier_used_snd] at h2
        exact h2 (List.mem_cons_of_mem _ hxu)

/-- C5: sanitize_headers shares one used set in positional order, the returned
identifiers are pairwise distinct for every header list, and colliding names
are disambiguated first-seen with suffixes 1, 2, and so on, as on the example
list of the claim. -/
theorem C5_sanitize_headers_distinct :
    (∀ headers : List String, (sanitize_headers headers).Nodup) ∧
    sanitize_headers ["Name", "name", "NAME"] = ["name", "name_1", "name_2"] := by
  constructor
  · intro headers
    exact (sanitizeHeadersGo_spec headers 0 []).1
  · decide

/-- NULL_TOKENS from the source. -/
def NULL_TOKENS : List String := ["", "na", "n/a", "null", "none"]

/-- parse_null from the source: None stays None; otherwise strip whitespace and
map a case-insensitive null token to None, else return the stripped value. -/
def parse_null (value : Option String) : Option String :=
  match value with
  | none => none
  | some s => if pyLower (pyStrip s) ∈ NULL_TOKENS then none else some (pyStrip s)

/-- Optional sign of INT_RE. -/
def dropSign (l : List Char) : List Char :=
  match l with
  | c :: cs => if c = '+' || c = '-' then cs else c :: cs
  | [] => []

/-- Tail of INT_RE after the first digit: further digits, where the regex
dollar also matches just before one final newline. -/
def digitsTail : List Char → Bool
  | [] => true
  | c :: cs => if c = '\n' then cs.isEmpty else c.isDigit && digitsTail cs

/-- is_int from the source: INT_RE full match of an optional sign and one or
more digits (ASCII model of the digit class). -/
def is_int (value : String) : Bool :=
  match dropSign value.data with
  | [] => false
  | c :: cs => c.isDigit && digitsTail cs

/-- Continue a Python numeric digit group after at least one digit: digits with
single underscores strictly between digits. Returns the accumulated value, the
digit count, and the unconsumed rest. -/
def digitGroupCont : Nat → Nat → List Char → Nat × Nat × List Char
  | acc, cnt, [] => (acc, cnt, [])
  | acc, cnt, c :: cs =>
    if c.isDigit then digitGroupCont (10 * acc + (c.toNat - 48)) (cnt + 1) cs
    else if c = '_' then
      match cs with
      | d :: ds =>
        if d.isDigit then digitGroupCont (10 * acc + (d.toNat - 48)) (cnt + 1) ds
        else (acc, cnt, c :: d :: ds)
      | [] => (acc, cnt, [c])
    else (acc, cnt, c :: cs)

/-- Start a Python numeric digit group: the first character must be a digit. -/
def digitGroupStart (l : List Char) : Option (Nat × Nat × List Char) :=
  match l with
  | c :: cs => if c.isDigit then some (digitGroupCont (c.toNat - 48) 1 cs) else none
  | [] => none

/-- A digit group consuming its whole input, as required by int() and by
exponents. -/
def pyIntOfDigits (l : List Char) : Option Nat :=
  match digitGroupStart l with
  | some (acc, _, rest) => if rest = [] then some acc else none
  | none => none

/-- Signed integer after stripping: optional sign then a full digit group. -/
def pyIntSigned (l : List Char) : Option Int :=
  match l with
  | [] => none
  | c :: cs =>
    if c = '+' then (pyIntOfDigits cs).map (fun n => (n : Int))
    else if c = '-' then (pyIntOfDigits cs).map (fun n => -(n : Int))
    else (pyIntOfDigits (c :: cs)).map (fun n => (n : Int))

/-- Python int(str) over base 10 (ASCII digits): strip whitespace, optional
sign, digits with single underscores strictly between digits. -/
def pyInt (s : String) : Option Int := pyIntSigned (pyStripChars s.data)

/-- Exponent part of a float literal: empty for no exponent, else e or E, an
optional sign and a digit group consuming the rest. -/
def parseExp (l : List Char) : Option Int :=
  match l with
  | [] => some 0
  | c :: cs =>
    if c = 'e' || c = 'E' then
      match cs with
      | [] => none
      | d :: ds =>
        if d = '+' then (pyIntOfDigits ds).map (fun n => (n : Int))
        else if d = '-' then (pyIntOfDigits ds).map (fun n => -(n : Int))
        else (pyIntOfDigits (d :: ds)).map (fun n => (n : Int))
    else none

/-- Unsigned mantissa of a float literal: either an integer part with optional
dot and optional fraction, or a dot with a mandatory fraction. Returns the
joint digit value m, the fractional digit count f (the decimal value is
m / 10^f), and the rest. -/
def parseMantissa (l : List Char) : Option (Nat × Nat × List Char) :=
  match digitGroupStart l with
  | some (ip, _, rest) =>
    match rest with
    | '.' :: rest2 =>
      match digitGroupStart rest2 with
      | some (fp, fc, rest3) => some (ip * 10 ^ fc + fp, fc, rest3)
      | none => some (ip, 0, rest2)
    | _ => some (ip, 0, rest)
  | none =>
    match l with
    | '.' :: rest2 =>
      match digitGroupStart rest2 with
      | some (fp, fc, rest3) => some (fp, fc, rest3)
      | none => none
    | _ => none

/-- Overflow threshold of an IEEE double under round-to-nearest-even: a decimal
magnitude of at least 2^1024 - 2^970 converts to infinity, anything smaller to
a finite double. -/
def floatThreshold : Nat := 2 ^ 1024 - 2 ^ 970

/-- Does the decimal m / 10^f * 10^e convert to a finite double? Decided
exactly with integer arithmetic. -/
def decFinite (m f : Nat) (e : Int) : Bool :=
  if (f : Int) ≤ e then m * 10 ^ (e - (f : Int)).toNat < floatThreshold
  else m < floatThreshold * 10 ^ (((f : Int) - e).toNat)

/-- Exact rational value of the decimal (sign, m, f, e). -/
def decValue (neg : Bool) (m f : Nat) (e : Int) : ℚ :=
  if neg then -(decMag m f e) else decMag m f e
where decMag (m f : Nat) (e : Int) : ℚ :=
  if (f : Int) ≤ e then ((m * 10 ^ (e - (f : Int)).toNat : Nat) : ℚ)
  else (m : ℚ) / ((10 ^ (((f : Int) - e).toNat) : Nat) : ℚ)

/-- Unsigned body of float(): the special words inf, infinity and nan
(case-insensitive), or mantissa and exponent. -/
def pyFloatUnsigned (neg : Bool) (l : List Char) : Option (Option ℚ) :=
  if l.map Char.toLower = ('i' :: 'n' :: 'f' :: []) ||
     l.map Char.toLower = ("infinity" : String).data ||
     l.map Char.toLower = ('n' :: 'a' :: 'n' :: []) then some none
  else
    match parseMantissa l with
    | none => none
    | some (m, f, rest) =>
      match parseExp rest with
      | none => none
      | some e =>
        if decFinite m f e then some (some (decValue neg m f e)) else some none

/-- Sign handling of float() after stripping. -/
def pyFloatSigned (l : List Char) : Option (Option ℚ) :=
  match l with
  | [] => none
  | c :: cs =>
    if c = '+' then pyFloatUnsigned false cs
    else if c = '-' then pyFloatUnsigned true cs
    else pyFloatUnsigned false (c :: cs)

/-- Python float(str), evaluated exactly: none when the string does not parse,
some none when the result is not finite (nan, infinities, or overflow past the
double range), some (some q) with the exact decimal value otherwise. The
stored double is q rounded to 53 bits; the rounding is not modelled because no
claim depends on the rounded value, while finiteness is decided exactly. -/
def pyFloat (s : String) : Option (Option ℚ) := pyFloatSigned (pyStripChars s.data)

/-- is_float from the source: float(value) parses to a finite value and the
value is not an integer literal. -/
def is_float (value : String) : Bool :=
  match pyFloat value with
  | some (some _) => !(is_int value)
  | _ => false

/-- observed_cell_type from the source. -/
def observed_cell_type (value : Option String) : Option String :=
  match parse_null value with
  | none => none
  | some v =>
    if is_int v then some "INTEGER"
    else if is_float v then some "REAL"
    else some "TEXT"

/-- Precedence order of the source dict; the lookup is only ever applied to
INTEGER, REAL and TEXT (other strings would raise KeyError in Python and are
given the default 0 here). -/
def tyOrd (t : String) : Nat :=
  if t = "INTEGER" then 0 else if t = "REAL" then 1 else if t = "TEXT" then 2 else 0

/-- upgrade_type from the source. -/
def upgrade_type (current : String) (observed : Option String) : String :=
  match observed with
  | none => current
  | some o =>
    if current = o then current
    else if tyOrd current ≥ tyOrd o then current
    else o

/-- Values held by an SQLite cell after conversion. A REAL holds the exact
decimal value produced by the float parser (see pyFloat). -/
inductive SqlValue
  | null
  | int (i : Int)
  | real (q : ℚ)
  | text (s : String)
deriving DecidableEq, Repr

/-- convert_value from the source. -/
def convert_value (value : Option String) (targetType : String) : SqlValue :=
  match parse_null value with
  | none => SqlValue.null
  | some v =>
    if targetType = "INTEGER" then
      match pyInt v with
      | some i => SqlValue.int i
      | none => SqlValue.null
    else if targetType = "REAL" then
      match pyFloat v with
      | some (some q) => SqlValue.real q
      | _ => SqlValue.null
    else SqlValue.text v

/-- Row-length normalization shared by both passes of the source. -/
def normalize_row (n : Nat) (row : List String) : List String :=
  if row.length < n then row ++ List.replicate (n - row.length) ""
  else if row.length > n then row.take n
  else row

/-- One row of the inference fold: upgrade every column type by the observed
cell type of the normalized row. -/
def inferStep (n : Nat) (ts : List String) (row : List String) : List String :=
  List.zipWith (fun t c => upgrade_type t (observed_cell_type (some c))) ts (normalize_row n row)

/-- infer_column_types from the source: skip the header row, start every column
at INTEGER, fold the upgrade over all data rows, and count the data rows. -/
def infer_column_types (rows : List (List String)) (n : Nat) : List String × Nat :=
  match rows with
  | [] => (List.replicate n "INTEGER", 0)
  | _ :: dataRows =>
    (dataRows.foldl (inferStep n) (List.replicate n "INTEGER"), dataRows.length)

/-- Observed cell types in column i over the data rows (the header excluded),
after row normalization. -/
def colObserved (rows : List (List String)) (n : Nat) (i : Nat) : List (Option String) :=
  (rows.drop 1).map (fun r => observed_cell_type (some ((normalize_row n r).getD i "")))

theorem upgrade_some (c a : String) :
    upgrade_type c (some a) = if tyOrd a ≤ tyOrd c then c else a := by
  show (if c = a then c else if tyOrd c ≥ tyOrd a then c else a) =
    if tyOrd a ≤ tyOrd c then c else a
  by_cases h : c = a
  · subst h
    rw [if_pos rfl, if_pos (le_refl _)]
  · rw [if_neg h]

theorem tyOrd_le_two (t : String) : tyOrd t ≤ 2 := by
  unfold tyOrd
  split_ifs <;> omega

theorem tyOrd_pos_inj (a b : String) (h : tyOrd a = tyOrd b) (hp : 0 < tyOrd a) :
    a = b := by
  unfold tyOrd at h hp
  split_ifs at h hp <;> simp_all

theorem upgrade_comm (c : String) (o1 o2 : Option String) :
    upgrade_type (upgrade_type c o1) o2 = upgrade_type (upgrade_type c o2) o1 := by
  cases o1 with
  | none => rfl
  | some a =>
    cases o2 with
    | none => rfl
    | some b =>
      rw [upgrade_some c a, upgrade_some c b]
      by_cases h1 : tyOrd a ≤ tyOrd c
      · rw [if_pos h1]
        by_cases h2 : tyOrd b ≤ tyOrd c
        · rw [if_pos h2, upgrade_some, upgrade_some, if_pos h1, if_pos h2]
        · rw [if_neg h2, upgrade_some, upgrade_some, if_neg h2,
            if_pos (le_trans h1 (by omega))]
      · rw [if_neg h1]
        by_cases h2 : tyOrd b ≤ tyOrd c
        · rw [if_pos h2, upgrade_some, upgrade_some, if_neg h1,
            if_pos (le_trans h2 (by omega))]
        · rw [if_neg h2, upgrade_some, upgrade_some]
          by_cases h3 : tyOrd b ≤ tyOrd a
          · rw [if_pos h3]
            by_cases h4 : tyOrd a ≤ tyOrd b
            · rw [if_pos h4]
              exact (tyOrd_pos_inj b a (le_antisymm h3 h4) (by omega)).symm
            · rw [if_neg h4]
          · rw [if_neg h3, if_pos (by omega)]

/-- C6: upgrade_type never lowers the current type in the INTEGER < REAL <
TEXT order, a TEXT column is never downgraded by any later observation, and
folding upgrade_type over any permutation of an observation sequence yields
the same final type. -/
theorem C6_upgrade_type_monotone_commutative :
    (∀ (current : String) (observed : Option String),
      tyOrd current ≤ tyOrd (upgrade_type current observed)) ∧
    (∀ observed : Option String, upgrade_type "TEXT" observed = "TEXT") ∧
    (∀ (current : String) (l1 l2 : List (Option String)), l1.Perm l2 →
      l1.foldl upgrade_type current = l2.foldl upgrade_type current) := by
  refine ⟨?_, ?_, ?_⟩
  · intro current observed
    cases observed with
    | none => exact le_refl _
    | some o =>
      rw [upgrade_some]
      by_cases h : tyOrd o ≤ tyOrd current
      · rw [if_pos h]
      · rw [if_neg h]
        omega
  · intro observed
    cases observed with
    | none => rfl
    | some o =>
      rw [upgrade_some]
      have h2 : tyOrd "TEXT" = 2 := by decide
      rw [if_pos (by rw [h2]; exact tyOrd_le_two o)]
  · intro current l1 l2 hperm
    exact hperm.foldl_eq' (fun x _ y _ z => upgrade_comm z x y) current

/-- C6 witness at concrete inputs. -/
theorem C6_upgrade_type_monotone_commutative_witness :
    [some "TEXT", some "INTEGER", none].foldl upgrade_type "INTEGER" =
      [none, some "INTEGER", some "TEXT"].foldl upgrade_type "INTEGER" :=
  C6_upgrade_type_monotone_commutative.2.2 "INTEGER"
    [some "TEXT", some "INTEGER", none] [none, some "INTEGER", some "TEXT"]
    (by decide)

/-- C3: a null token converts to NULL regardless of column type; an INTEGER
column stores the parsed integer or NULL when parsing fails; a REAL column the
parsed finite float or NULL when non-finite or unparsable; a TEXT column the
trimmed original text; conversion is total, so a cell never fails a row. -/
theorem C3_convert_value_per_type :
    (∀ (value : Option String) (t : String),
      parse_null value = none → convert_value value t = SqlValue.null) ∧
    (∀ v, parse_null (some v) = none ↔ pyLower (pyStrip v) ∈ NULL_TOKENS) ∧
    (∀ (value : Option String) (s : String), parse_null value = some s →
      convert_value value "INTEGER" =
        (match pyInt s with
         | some i => SqlValue.int i
         | none => SqlValue.null)) ∧
    (∀ (value : Option String) (s : String), parse_null value = some s →
      convert_value value "REAL" =
        (match pyFloat s with
         | some (some q) => SqlValue.real q
         | _ => SqlValue.null)) ∧
    (∀ (value : Option String) (s : String), parse_null value = some s →
      convert_value value "TEXT" = SqlValue.text s) := by
  refine ⟨?_, ?_, ?_, ?_, ?_⟩
  · intro value t h
    unfold convert_value
    rw [h]
  · intro v
    show (if pyLower (pyStrip v) ∈ NULL_TOKENS then none
      else some (pyStrip v) : Option String) = none ↔ pyLower (pyStrip v) ∈ NULL_TOKENS
    by_cases h : pyLower (pyStrip v) ∈ NULL_TOKENS
    · rw [if_pos h]
      simp [h]
    · rw [if_neg h]
      simp [h]
  · intro value s h
    unfold convert_value
    rw [h]
    rfl
  · intro value s h
    unfold convert_value
    rw [h]
    rfl
  · intro value s h
    unfold convert_value
    rw [h]
    rfl

/-- C3 witness at concrete cells. -/
theorem C3_convert_value_per_type_witness :
    convert_value (some " NA ") "REAL" = SqlValue.null ∧
    convert_value (some " 12 ") "INTEGER" = SqlValue.int 12 ∧
    convert_value (some "2.5x") "REAL" = SqlValue.null ∧
    convert_value (some " ab ") "TEXT" = SqlValue.text "ab" := by
  refine ⟨?_, ?_, ?_, ?_⟩
  · exact C3_convert_value_per_type.1 (some " NA ") "REAL" (by decide)
  · exact (C3_convert_value_per_type.2.2.1 (some " 12 ") "12" (by decide)).trans (by decide)
  · exact (C3_convert_value_per_type.2.2.2.1 (some "2.5x") "2.5x" (by decide)).trans (by decide)
  · exact C3_convert_value_per_type.2.2.2.2 (some " ab ") "ab" (by decide)

theorem upgrade_mono (t : String) (o : Option String) :
    tyOrd t ≤ tyOrd (upgrade_type t o) := by
  cases o with
  | none => exact le_refl _
  | some a =>
    rw [upgrade_some]
    by_cases h : tyOrd a ≤ tyOrd t
    · rw [if_pos h]
    · rw [if_neg h]
      omega

theorem upgrade_observed_le (t a : String) :
    tyOrd a ≤ tyOrd (upgrade_type t (some a)) := by
  rw [upgrade_some]
  by_cases h : tyOrd a ≤ tyOrd t
  · rw [if_pos h]
    exact h
  · rw [if_neg h]

theorem upgrade_result (t : String) (o : Option String) :
    upgrade_type t o = t ∨ o = some (upgrade_type t o) := by
  cases o with
  | none => exact Or.inl rfl
  | some a =>
    rw [upgrade_some]
    by_cases h : tyOrd a ≤ tyOrd t
    · rw [if_pos h]
      exact Or.inl rfl
    · rw [if_neg h]
      exact Or.inr rfl

theorem foldl_upgrade_mono (l : List (Option String)) :
    ∀ t : String, tyOrd t ≤ tyOrd (l.foldl upgrade_type t) := by
  induction l with
  | nil => intro t; exact le_refl _
  | cons o l ih =>
    intro t
    rw [List.foldl_cons]
    exact le_trans (upgrade_mono t o) (ih (upgrade_type t o))

theorem foldl_upgrade_observed_le (l : List (Option String)) :
    ∀ (t : String), ∀ o ∈ l, ∀ s, o = some s →
      tyOrd s ≤ tyOrd (l.foldl upgrade_type t) := by
  induction l with
  | nil => intro t o ho; exact absurd ho (List.not_mem_nil o)
  | cons o0 l ih =>
    intro t o ho s hs
    rw [List.foldl_cons]
    rcases List.mem_cons.mp ho with h | h
    · subst h
      subst hs
      exact le_trans (upgrade_observed_le t s) (foldl_upgrade_mono l _)
    · exact ih (upgrade_type t o0) o h s hs

theorem foldl_upgrade_attained (l : List (Option String)) :
    ∀ t : String, l.foldl upgrade_type t = t ∨ some (l.foldl upgrade_type t) ∈ l := by
  induction l with
  | nil => intro t; exact Or.inl rfl
  | cons o l ih =>
    intro t
    rw [List.foldl_cons]
    rcases ih (upgrade_type t o) with h | h
    · rw [h]
      rcases upgrade_result t o with h2 | h2
      · rw [h2]
        exact Or.inl rfl
      · exact Or.inr (List.mem_cons.mpr (Or.inl h2.symm))
    · exact Or.inr (List.mem_cons_of_mem _ h)

theorem getD_of_lt {α : Type _} (l : List α) (i : Nat) (d : α) (h : i < l.length) :
    l.getD i d = l[i] := by
  rw [List.getD_eq_getElem?_getD, List.getElem?_eq_getElem h]
  rfl

theorem normalize_row_length (n : Nat) (row : List String) :
    (normalize_row n row).length = n := by
  unfold normalize_row
  split_ifs with h1 h2
  · rw [List.length_append, List.length_replicate]
    omega
  · rw [List.length_take]
    omega
  · omega

theorem inferStep_length (n : Nat) (ts row : List String) (h : ts.length = n) :
    (inferStep n ts row).length = n := by
  unfold inferStep
  rw [List.length_zipWith, normalize_row_length, h, Nat.min_self]

theorem inferStep_getD (n : Nat) (ts row : List String) (i : Nat)
    (hlen : ts.length = n) (hi : i < n) :
    (inferStep n ts row).getD i "INTEGER" =
      upgrade_type (ts.getD i "INTEGER")
        (observed_cell_type (some ((normalize_row n row).getD i ""))) := by
  have hz : i < (inferStep n ts row).length := by
    rw [inferStep_length n ts row hlen]
    exact hi
  rw [getD_of_lt _ i _ hz]
  rw [getD_of_lt ts i _ (by omega)]
  rw [getD_of_lt _ i _ (by rw [normalize_row_length]; exact hi)]
  unfold inferStep
  rw [List.getElem_zipWith]

theorem foldl_inferStep_getD (dataRows : List (List String)) (n i : Nat) (hi : i < n) :
    ∀ ts : List String, ts.length = n →
      (dataRows.foldl (inferStep n) ts).getD i "INTEGER" =
        (dataRows.map
            (fun r => observed_cell_type (some ((normalize_row n r).getD i "")))).foldl
          upgrade_type (ts.getD i "INTEGER") := by
  induction dataRows with
  | nil => intro ts _; rfl
  | cons r rows ih =>
    intro ts hlen
    rw [List.foldl_cons, List.map_cons, List.foldl_cons]
    rw [ih (inferStep n ts r) (inferStep_length n ts r hlen)]
    rw [inferStep_getD n ts r i hlen hi]

/-- C2: a cell that normalizes to a null token does not contribute an observed
type; any other cell is classified INTEGER on the optional-sign all-digit
pattern, else REAL on a finite float parse, else TEXT; and each column's final
type is the least permissive type in the INTEGER < REAL < TEXT order
compatible with every observed cell type, an all-null or row-less column
remaining INTEGER. -/
theorem C2_inference_classification_and_join (rows : List (List String)) (n i : Nat)
    (hi : i < n) :
    (∀ v, parse_null (some v) = none → observed_cell_type (some v) = none) ∧
    (∀ v s, parse_null (some v) = some s →
      observed_cell_type (some v) =
        some (if is_int s then "INTEGER" else if is_float s then "REAL" else "TEXT")) ∧
    (∀ o ∈ colObserved rows n i, ∀ s, o = some s →
      tyOrd s ≤ tyOrd ((infer_column_types rows n).1.getD i "INTEGER")) ∧
    ((infer_column_types rows n).1.getD i "INTEGER" = "INTEGER" ∨
      some ((infer_column_types rows n).1.getD i "INTEGER") ∈ colObserved rows n i) := by
  refine ⟨?_, ?_, ?_⟩
  · intro v h
    unfold observed_cell_type
    rw [h]
  · intro v s h
    unfold observed_cell_type
    rw [h]
    show (if is_int s then some "INTEGER"
      else if is_float s then some "REAL" else some "TEXT" : Option String) =
      some (if is_int s then "INTEGER" else if is_float s then "REAL" else "TEXT")
    by_cases h1 : is_int s = true
    · rw [if_pos h1, if_pos h1]
    · rw [if_neg h1, if_neg h1]
      by_cases h2 : is_float s = true
      · rw [if_pos h2, if_pos h2]
      · rw [if_neg h2, if_neg h2]
  · cases rows with
    | nil =>
      constructor
      · intro o ho
        exact absurd ho (List.not_mem_nil o)
      · left
        show (List.replicate n "INTEGER").getD i "INTEGER" = "INTEGER"
        rw [getD_of_lt _ i _ (by rw [List.length_replicate]; exact hi)]
        exact List.getElem_replicate _ (by rw [List.length_replicate]; exact hi)
    | cons hdr dataRows =>
      have hmain := foldl_inferStep_getD dataRows n i hi (List.replicate n "INTEGER")
        (List.length_replicate n _)
      have hinit : (List.replicate n "INTEGER").getD i "INTEGER" = "INTEGER" := by
        rw [getD_of_lt _ i _ (by rw [List.length_replicate]; exact hi)]
        exact List.getElem_replicate _ (by rw [List.length_replicate]; exact hi)
      rw [hinit] at hmain
      have hcol : colObserved (hdr :: dataRows) n i =
          dataRows.map
            (fun r => observed_cell_type (some ((normalize_row n r).getD i ""))) := rfl
      have hfst : (infer_column_types (hdr :: dataRows) n).1 =
          dataRows.foldl (inferStep n) (List.replicate n "INTEGER") := rfl
      constructor
      · intro o ho s hs
        rw [hfst, hmain]
        rw [hcol] at ho
        exact foldl_upgrade_observed_le _ "INTEGER" o ho s hs
      · rw [hfst, hmain, hcol]
        exact foldl_upgrade_attained _ "INTEGER"

/-- C2 witness at a concrete file. -/
theorem C2_inference_classification_and_join_witness :
    (0 : Nat) < 2 ∧
    ((infer_column_types [["a", "b"], ["1", "2.5"], ["x", "3"]] 2).1.getD 0 "INTEGER" =
        "INTEGER" ∨
      some ((infer_column_types [["a", "b"], ["1", "2.5"], ["x", "3"]] 2).1.getD 0 "INTEGER") ∈
        colObserved [["a", "b"], ["1", "2.5"], ["x", "3"]] 2 0) :=
  ⟨by decide,
    (C2_inference_classification_and_join [["a", "b"], ["1", "2.5"], ["x", "3"]] 2 0
      (by decide)).2.2.2⟩

theorem space_not_digit (c : Char) (h : c.isDigit = true) : pyIsSpace c = false := by
  cases hsp : pyIsSpace c
  · rfl
  · exfalso
    unfold pyIsSpace at hsp
    simp only [Bool.or_eq_true, decide_eq_true_eq] at hsp
    rcases hsp with ((((h1 | h1) | h1) | h1) | h1) | h1 <;>
      (subst h1; exact absurd h (by decide))

theorem dropWhile_eq_self_of_nonspace (l : List Char)
    (hall : ∀ c ∈ l, pyIsSpace c = false) : l.dropWhile pyIsSpace = l := by
  cases l with
  | nil => rfl
  | cons c cs =>
    rw [List.dropWhile_cons, if_neg]
    rw [hall c (List.mem_cons_self c cs)]
    simp

theorem pyStripChars_all_nonspace (x : List Char)
    (hall : ∀ c ∈ x, pyIsSpace c = false) : pyStripChars x = x := by
  unfold pyStripChars
  rw [dropWhile_eq_self_of_nonspace x hall]
  rw [dropWhile_eq_self_of_nonspace x.reverse
    (fun c hc => hall c (List.mem_reverse.mp hc))]
  exact List.reverse_reverse x

theorem pyStripChars_newline (x : List Char) (hne : x ≠ [])
    (hall : ∀ c ∈ x, pyIsSpace c = false) : pyStripChars (x ++ ('\n' :: [])) = x := by
  unfold pyStripChars
  have h1 : (x ++ ('\n' :: [])).dropWhile pyIsSpace = x ++ ('\n' :: []) := by
    cases x with
    | nil => exact absurd rfl hne
    | cons c cs =>
      rw [List.cons_append, List.dropWhile_cons, if_neg]
      rw [hall c (List.mem_cons_self c cs)]
      simp
  rw [h1, List.reverse_append]
  have h2 : (('\n' :: []) : List Char).reverse ++ x.reverse = '\n' :: x.reverse := rfl
  rw [h2, List.dropWhile_cons, if_pos (by decide)]
  rw [dropWhile_eq_self_of_nonspace x.reverse
    (fun c hc => hall c (List.mem_reverse.mp hc))]
  exact List.reverse_reverse x

theorem digitsTail_decomp : ∀ cs : List Char, digitsTail cs = true →
    ∃ ds tail, cs = ds ++ tail ∧ (∀ c ∈ ds, c.isDigit = true) ∧
      (tail = [] ∨ tail = ('\n' :: [])) := by
  intro cs
  induction cs with
  | nil =>
    intro _
    exact ⟨[], [], rfl, by intro c hc; exact absurd hc (List.not_mem_nil c), Or.inl rfl⟩
  | cons c cs ih =>
    intro h
    rw [digitsTail] at h
    by_cases hnl : c = '\n'
    · rw [if_pos hnl] at h
      have hcs : cs = [] := List.isEmpty_iff.mp h
      subst hcs
      subst hnl
      exact ⟨[], '\n' :: [], rfl, by intro d hd; exact absurd hd (List.not_mem_nil d),
        Or.inr rfl⟩
    · rw [if_neg hnl] at h
      rw [Bool.and_eq_true] at h
      rcases h with ⟨hd, ht⟩
      rcases ih ht with ⟨ds, tail, he, hds, htail⟩
      refine ⟨c :: ds, tail, by rw [List.cons_append, he], ?_, htail⟩
      intro d hmem
      rcases List.mem_cons.mp hmem with h2 | h2
      · subst h2; exact hd
      · exact hds d h2

theorem dropSign_nil : dropSign [] = [] := rfl

theorem dropSign_cons (c : Char) (cs : List Char) :
    dropSign (c :: cs) = if c = '+' || c = '-' then cs else c :: cs := rfl

theorem pyIntSigned_cons (c : Char) (cs : List Char) :
    pyIntSigned (c :: cs) =
      if c = '+' then (pyIntOfDigits cs).map (fun n => (n : Int))
      else if c = '-' then (pyIntOfDigits cs).map (fun n => -(n : Int))
      else (pyIntOfDigits (c :: cs)).map (fun n => (n : Int)) := rfl

theorem digitGroupCont_all_digits : ∀ ds : List Char, (∀ c ∈ ds, c.isDigit = true) →
    ∀ acc cnt, ∃ v k, digitGroupCont acc cnt ds = (v, k, []) := by
  intro ds
  induction ds with
  | nil => intro _ acc cnt; exact ⟨acc, cnt, rfl⟩
  | cons c cs ih =>
    intro hall acc cnt
    rw [digitGroupCont.eq_def]
    dsimp only
    rw [if_pos (hall c (List.mem_cons_self c cs))]
    exact ih (fun d hd => hall d (List.mem_cons_of_mem _ hd)) _ _

theorem pyIntOfDigits_all_digits (c : Char) (ds : List Char) (hc : c.isDigit = true)
    (hds : ∀ d ∈ ds, d.isDigit = true) : ∃ v, pyIntOfDigits (c :: ds) = some v := by
  have h1 : digitGroupStart (c :: ds) = some (digitGroupCont (c.toNat - 48) 1 ds) := by
    show (if c.isDigit = true then some (digitGroupCont (c.toNat - 48) 1 ds)
      else none) = some (digitGroupCont (c.toNat - 48) 1 ds)
    rw [if_pos hc]
  rcases digitGroupCont_all_digits ds hds (c.toNat - 48) 1 with ⟨v, k, hvk⟩
  refine ⟨v, ?_⟩
  unfold pyIntOfDigits
  rw [h1, hvk]
  rfl

theorem pyInt_of_is_int (s : String) (h : is_int s = true) : ∃ i, pyInt s = some i := by
  unfold is_int at h
  cases hd : dropSign s.data with
  | nil => rw [hd] at h; exact absurd h (by decide)
  | cons c cs =>
    rw [hd] at h
    rw [Bool.and_eq_true] at h
    rcases h with ⟨hcdig, htail⟩
    rcases digitsTail_decomp cs htail with ⟨ds, tail, hcs, hds, htl⟩
    cases hsd : s.data with
    | nil =>
      rw [hsd, dropSign_nil] at hd
      exact absurd hd (by simp)
    | cons c0 cs0 =>
      rw [hsd, dropSign_cons] at hd
      by_cases hsign : (c0 = '+' || c0 = '-') = true
      · rw [if_pos hsign] at hd
        subst hd
        have hc0ns : pyIsSpace c0 = false := by
          rw [Bool.or_eq_true] at hsign
          rcases hsign with h1 | h1
          · rw [decide_eq_true_eq] at h1; subst h1; decide
          · rw [decide_eq_true_eq] at h1; subst h1; decide
        have hfrontall : ∀ d ∈ c0 :: c :: ds, pyIsSpace d = false := by
          intro d hdm
          rcases List.mem_cons.mp hdm with h1 | h1
          · subst h1; exact hc0ns
          · rcases List.mem_cons.mp h1 with h2 | h2
            · subst h2; exact space_not_digit _ hcdig
            · exact space_not_digit _ (hds d h2)
        have hstrip : pyStripChars s.data = c0 :: c :: ds := by
          rw [hsd, hcs]
          rcases htl with h1 | h1
          · subst h1
            rw [List.append_nil]
            exact pyStripChars_all_nonspace _ hfrontall
          · subst h1
            have hsh : c0 :: c :: (ds ++ ('\n' :: [])) =
                (c0 :: c :: ds) ++ ('\n' :: []) := by simp
            rw [hsh]
            exact pyStripChars_newline _ (by simp) hfrontall
        unfold pyInt
        rw [hstrip, pyIntSigned_cons]
        rcases pyIntOfDigits_all_digits c ds hcdig hds with ⟨v, hv⟩
        rw [Bool.or_eq_true] at hsign
        rcases hsign with h1 | h1
        · rw [decide_eq_true_eq] at h1
          subst h1
          rw [if_pos rfl, hv]
          exact ⟨(v : Int), rfl⟩
        · rw [decide_eq_true_eq] at h1
          subst h1
          rw [if_neg (by decide), if_pos rfl, hv]
          exact ⟨-(v : Int), rfl⟩
      · rw [if_neg hsign] at hd
        have hc0 : c0 = c := (List.cons.injEq c0 cs0 c cs).mp hd |>.1
        have hcs0 : cs0 = cs := (List.cons.injEq c0 cs0 c cs).mp hd |>.2
        subst hc0
        subst hcs0
        have hfrontall : ∀ d ∈ c0 :: ds, pyIsSpace d = false := by
          intro d hdm
          rcases List.mem_cons.mp hdm with h1 | h1
          · subst h1; exact space_not_digit _ hcdig
          · exact space_not_digit _ (hds d h1)
        have hstrip : pyStripChars s.data = c0 :: ds := by
          rw [hsd, hcs]
          rcases htl with h1 | h1
          · subst h1
            rw [List.append_nil]
            exact pyStripChars_all_nonspace _ hfrontall
          · subst h1
            have hsh : c0 :: (ds ++ ('\n' :: [])) = (c0 :: ds) ++ ('\n' :: []) := by simp
            rw [hsh]
            exact pyStripChars_newline _ (by simp) hfrontall
        unfold pyInt
        rw [hstrip, pyIntSigned_cons]
        have hplus : ¬ c0 = '+' := by
          intro hx; subst hx; exact absurd hcdig (by decide)
        have hminus : ¬ c0 = '-' := by
          intro hx; subst hx; exact absurd hcdig (by decide)
        rw [if_neg hplus, if_neg hminus]
        rcases pyIntOfDigits_all_digits c0 ds hcdig hds with ⟨v, hv⟩
        rw [hv]
        exact ⟨(v : Int), rfl⟩

/-- A 310-digit integer literal: 1 followed by 309 zeros, exceeding the
largest finite IEEE double (about 1.8e308). -/
def bigIntStr : String := String.mk ('1' :: List.replicate 309 '0')

set_option maxRecDepth 100000 in
set_option exponentiation.threshold 2000 in
/-- C9 counterexample: bigIntStr is classified INTEGER by pass-1 inference,
INTEGER is at most REAL in the type order, and a column holding it together
with 0.5 is inferred REAL; yet converting it for that REAL column stores NULL,
because float() overflows to infinity, so the defensive NULL fall-back is
reachable for a value whose classification is at most the column type. -/
theorem C9_real_column_overflow_counterexample :
    observed_cell_type (some bigIntStr) = some "INTEGER" ∧
    tyOrd "INTEGER" ≤ tyOrd "REAL" ∧
    (infer_column_types [["h"], ["0.5"], [bigIntStr]] 1).1 = ["REAL"] ∧
    convert_value (some bigIntStr) "REAL" = SqlValue.null :=
  ⟨by decide, by decide, by decide, by decide⟩

/-- C9 (amended): a cell classified INTEGER always converts to its parsed
integer in an INTEGER column, a cell classified REAL always converts to its
parsed finite float in a REAL column, and any non-null cell converts to its
trimmed text in a TEXT column; the NULL fall-back remains reachable only in
the cross case of an INTEGER-classified cell written to a REAL column whose
magnitude overflows the double range (see the counterexample). -/
theorem C9_conversion_matches_classification :
    (∀ v s, parse_null (some v) = some s →
      observed_cell_type (some v) = some "INTEGER" →
      ∃ i, pyInt s = some i ∧ convert_value (some v) "INTEGER" = SqlValue.int i) ∧
    (∀ v s, parse_null (some v) = some s →
      observed_cell_type (some v) = some "REAL" →
      ∃ q, pyFloat s = some (some q) ∧ convert_value (some v) "REAL" = SqlValue.real q) ∧
    (∀ v s, parse_null (some v) = some s →
      convert_value (some v) "TEXT" = SqlValue.text s) := by
  refine ⟨?_, ?_, ?_⟩
  · intro v s h hobs
    unfold observed_cell_type at hobs
    rw [h] at hobs
    dsimp only at hobs
    have hint : is_int s = true := by
      by_contra hni
      rw [if_neg hni] at hobs
      by_cases hf : is_float s = true
      · rw [if_pos hf] at hobs
        exact absurd hobs (by decide)
      · rw [if_neg hf] at hobs
        exact absurd hobs (by decide)
    rcases pyInt_of_is_int s hint with ⟨i, hi⟩
    refine ⟨i, hi, ?_⟩
    unfold convert_value
    rw [h]
    dsimp only
    rw [if_pos rfl, hi]
  · intro v s h hobs
    unfold observed_cell_type at hobs
    rw [h] at hobs
    dsimp only at hobs
    have hfl : is_float s = true := by
      by_cases hni : is_int s = true
      · rw [if_pos hni] at hobs
        exact absurd hobs (by decide)
      · rw [if_neg hni] at hobs
        by_cases hf : is_float s = true
        · exact hf
        · rw [if_neg hf] at hobs
          exact absurd hobs (by decide)
    have hq : ∃ q, pyFloat s = some (some q) := by
      unfold is_float at hfl
      cases hpf : pyFloat s with
      | none =>
        rw [hpf] at hfl
        simp at hfl
      | some o =>
        cases o with
        | none =>
          rw [hpf] at hfl
          simp at hfl
        | some q => exact ⟨q, rfl⟩
    rcases hq with ⟨q, hpf⟩
    refine ⟨q, hpf, ?_⟩
    unfold convert_value
    rw [h]
    dsimp only
    rw [if_neg (by decide : ¬ ("REAL" : String) = "INTEGER"), if_pos rfl, hpf]
  · intro v s h
    unfold convert_value
    rw [h]
    rfl

set_option maxRecDepth 100000 in
set_option exponentiation.threshold 2000 in
/-- C9 amended witness at concrete cells. -/
theorem C9_conversion_matches_classification_witness :
    (∃ i, pyInt "12" = some i ∧ convert_value (some " 12 ") "INTEGER" = SqlValue.int i) ∧
    (∃ q, pyFloat "2.5" = some (some q) ∧
      convert_value (some " 2.5 ") "REAL" = SqlValue.real q) ∧
    convert_value (some " ab ") "TEXT" = SqlValue.text "ab" :=
  ⟨C9_conversion_matches_classification.1 " 12 " "12" (by decide) (by decide),
   C9_conversion_matches_classification.2.1 " 2.5 " "2.5" (by decide) (by decide),
   C9_conversion_matches_classification.2.2 " ab " "ab" (by decide)⟩

/-- Pass-2 conversion of one row: normalize the row length, then convert each
cell against its column's final type (the tuple comprehension in main). -/
def convert_row (n : Nat) (types : List String) (row : List String) : List SqlValue :=
  List.zipWith (fun c t => convert_value (some c) t) (normalize_row n row) types

theorem convert_empty_null (t : String) : convert_value (some "") t = SqlValue.null := by
  unfold convert_value
  rw [show parse_null (some "") = none by decide]

/-- C7: in both passes a data row is first normalized to the header width: a
short row is padded with empty cells (stored as NULL whatever the column
type), a long row is truncated, an exact row is unchanged, and the result
always has exactly the header's column count. -/
theorem C7_row_normalization (n : Nat) (row types : List String) :
    (row.length < n → normalize_row n row = row ++ List.replicate (n - row.length) "") ∧
    (row.length > n → normalize_row n row = row.take n) ∧
    (row.length = n → normalize_row n row = row) ∧
    (normalize_row n row).length = n ∧
    (∀ ts : List String, inferStep n ts row =
      List.zipWith (fun t c => upgrade_type t (observed_cell_type (some c))) ts
        (normalize_row n row)) ∧
    (∀ j, row.length ≤ j → j < n → types.length = n →
      (convert_row n types row).getD j SqlValue.null = SqlValue.null) := by
  refine ⟨?_, ?_, ?_, normalize_row_length n row, fun ts => rfl, ?_⟩
  · intro h
    unfold normalize_row
    rw [if_pos h]
  · intro h
    unfold normalize_row
    rw [if_neg (by omega), if_pos h]
  · intro h
    unfold normalize_row
    rw [if_neg (by omega), if_neg (by omega)]
  · intro j hj1 hj2 hlen
    have hlt : row.length < n := by omega
    have hz : j < (convert_row n types row).length := by
      unfold convert_row
      rw [List.length_zipWith, normalize_row_length, hlen, Nat.min_self]
      exact hj2
    rw [getD_of_lt _ j _ hz]
    unfold convert_row
    rw [List.getElem_zipWith]
    have hnorm : normalize_row n row = row ++ List.replicate (n - row.length) "" := by
      unfold normalize_row
      rw [if_pos hlt]
    have hj3 : j < (normalize_row n row).length := by
      rw [normalize_row_length]
      exact hj2
    have hcell : (normalize_row n row).getD j "" = "" := by
      rw [hnorm]
      rw [getD_of_lt _ j _ (by rw [List.length_append, List.length_replicate]; omega)]
      rw [List.getElem_append_right hj1]
      exact List.getElem_replicate _ _
    rw [← getD_of_lt (normalize_row n row) j "" hj3, hcell]
    exact convert_empty_null _

/-- C7 witness: a one-cell row against a three-column header. -/
theorem C7_row_normalization_witness :
    ((1 : Nat) < 3 ∧ (1 : Nat) ≤ 2 ∧ (2 : Nat) < 3 ∧
      ([("INTEGER" : String), "REAL", "TEXT"]).length = 3) ∧
    normalize_row 3 ["5"] = ["5", "", ""] ∧
    (convert_row 3 ["INTEGER", "REAL", "TEXT"] ["5"]).getD 2 SqlValue.null =
      SqlValue.null :=
  ⟨⟨by decide, by decide, by decide, by decide⟩,
   (C7_row_normalization 3 ["5"] ["INTEGER", "REAL", "TEXT"]).1 (by decide) |>.trans
     (by decide),
   (C7_row_normalization 3 ["5"] ["INTEGER", "REAL", "TEXT"]).2.2.2.2.2 2 (by decide)
     (by decide) (by decide)⟩

/-- Abstract input state of one main invocation: the CSV file is missing
(os.path.isfile false), exists but fails to open (OSError), or parses to
these rows (header first). CSV-module parse errors are outside this
parsed-rows model. -/
inductive CsvInput
  | missing
  | unreadable
  | content (rows : List (List String))

/-- The distinct error reports of main. -/
inductive ImportError
  | fileNotFound
  | openFailed
  | emptyCsv
  | blankHeader
  | dbError
deriving DecidableEq, Repr

/-- Moment at which a simulated database-engine or file failure hits the
database phase of main. -/
inductive FailPoint
  | duringDrop
  | duringCreate
  | duringInsert (rowsDone : Nat)
  | duringCommit
deriving DecidableEq, Repr

/-- Database phase of main (connect, PRAGMAs, DROP TABLE, CREATE TABLE, BEGIN,
batched inserts, commit) under the documented transaction semantics of the
Python sqlite3 module in its default legacy autocommit mode: an implicit
transaction is opened only before data-modification statements, never by DDL,
and the source issues BEGIN only after the DROP and CREATE have executed, so
those two statements run in SQLite autocommit mode and are durable
immediately. A failure before the drop leaves the initial state; a failure
during create leaves the table dropped; a failure during any insert or at
commit rolls back exactly the explicit transaction, leaving the
freshly-created empty table; on success the commit makes all rows durable.
The returned flag is success. Batch boundaries (batch size 1000) do not
change durability because all executemany calls sit inside the one explicit
transaction, so the rowsDone index of the failure point does not affect the
final state. -/
def runImportDb (init : Option (List (List SqlValue)))
    (rows : List (List SqlValue)) (fp : Option FailPoint) :
    Option (List (List SqlValue)) × Bool :=
  match fp with
  | some FailPoint.duringDrop => (init, false)
  | some FailPoint.duringCreate => (none, false)
  | some (FailPoint.duringInsert _) => (some [], false)
  | some FailPoint.duringCommit => (some [], false)
  | none => (some rows, true)

/-- Modelled from the spec: the database phase as the specification describes
it, with table drop, table creation and all inserts in one transaction, so
that any failure leaves the destination exactly as it was before the call. -/
def runImportDbSpec (init : Option (List (List SqlValue)))
    (rows : List (List SqlValue)) (fp : Option FailPoint) :
    Option (List (List SqlValue)) × Bool :=
  match fp with
  | some _ => (init, false)
  | none => (some rows, true)

/-- Header validation of main: no names, or every name blank after strip. -/
def blankHeader (hdr : List String) : Bool :=
  hdr.isEmpty || hdr.all (fun h => pyStrip h = "")

/-- Observable outcome of one main invocation: process exit code, the error
reported (if any), whether the destination database was opened at all, and
the durable state of the target table. -/
structure ImportOutcome where
  exitCode : Nat
  err : Option ImportError
  dbTouched : Bool
  table : Option (List (List SqlValue))
deriving DecidableEq, Repr

/-- Database phase wrapped into the outcome. -/
def mainDbPhase (init : Option (List (List SqlValue))) (n : Nat)
    (types : List String) (dataRows : List (List String))
    (fp : Option FailPoint) : ImportOutcome :=
  match runImportDb init (dataRows.map (fun r => convert_row n types r)) fp with
  | (tbl, true) => ⟨0, none, true, tbl⟩
  | (tbl, false) => ⟨1, some ImportError.dbError, true, tbl⟩

/-- main from the source over the abstract input: validations in source order
(file existence, open, header presence, header non-blank), then header
sanitization, pass-1 inference, and the database phase with pass-2
conversion. -/
def mainImport (input : CsvInput) (init : Option (List (List SqlValue)))
    (fp : Option FailPoint) : ImportOutcome :=
  match input with
  | CsvInput.missing => ⟨1, some ImportError.fileNotFound, false, init⟩
  | CsvInput.unreadable => ⟨1, some ImportError.openFailed, false, init⟩
  | CsvInput.content [] => ⟨1, some ImportError.emptyCsv, false, init⟩
  | CsvInput.content (hdr :: dataRows) =>
    if blankHeader hdr then ⟨1, some ImportError.blankHeader, false, init⟩
    else
      mainDbPhase init (sanitize_headers hdr).length
        (infer_column_types (hdr :: dataRows) (sanitize_headers hdr).length).1
        dataRows fp

/-- C1 counterexample: with a pre-existing one-row table and a failure during
insertion, the code leaves an empty freshly created table, not the prior
table, because DROP and CREATE were autocommitted before BEGIN; with no prior
table it likewise leaves an empty created table rather than none. The
spec-modelled transactional phase returns the prior state on the same input,
exhibiting the divergence. -/
theorem C1_atomicity_counterexample :
    (runImportDb (some [[SqlValue.int 1]]) [[SqlValue.int 2]]
        (some (FailPoint.duringInsert 0))).1 = some [] ∧
    some ([] : List (List SqlValue)) ≠ some [[SqlValue.int 1]] ∧
    (runImportDb none [[SqlValue.int 2]] (some (FailPoint.duringInsert 0))).1 =
      some [] ∧
    runImportDbSpec (some [[SqlValue.int 1]]) [[SqlValue.int 2]]
      (some (FailPoint.duringInsert 0)) = (some [[SqlValue.int 1]], false) :=
  ⟨by decide, by decide, by decide, by decide⟩

/-- C1 (amended): only the row inserts and the commit execute inside the
explicit transaction; the drop and create are committed immediately when
executed. Hence: a failure during the drop leaves the database unchanged, a
failure during the create leaves the prior table dropped, a failure during
insertion or commit leaves an empty newly created table, and on success the
full import is durable, with the error paths before the database phase
leaving the destination untouched. -/
theorem C1_transaction_scope (init : Option (List (List SqlValue)))
    (rows : List (List SqlValue)) (hdr : List String)
    (dataRows : List (List String)) :
    runImportDb init rows none = (some rows, true) ∧
    runImportDb init rows (some FailPoint.duringDrop) = (init, false) ∧
    runImportDb init rows (some FailPoint.duringCreate) = (none, false) ∧
    (∀ k, runImportDb init rows (some (FailPoint.duringInsert k)) = (some [], false)) ∧
    runImportDb init rows (some FailPoint.duringCommit) = (some [], false) ∧
    (blankHeader hdr = false → ∀ k,
      (mainImport (CsvInput.content (hdr :: dataRows)) init (some (FailPoint.duringInsert k))).table =
        some [] ∧
      (mainImport (CsvInput.content (hdr :: dataRows)) init (some (FailPoint.duringInsert k))).exitCode = 1) := by
  refine ⟨rfl, rfl, rfl, fun k => rfl, rfl, ?_⟩
  intro hblank k
  unfold mainImport
  dsimp only
  rw [if_neg (by rw [hblank]; exact Bool.false_ne_true)]
  exact ⟨rfl, rfl⟩

/-- C1 amended witness at a concrete non-blank header. -/
theorem C1_transaction_scope_witness :
    blankHeader ["id"] = false ∧
    (mainImport (CsvInput.content [["id"], ["7"]]) (some [[SqlValue.int 1]])
        (some (FailPoint.duringInsert 0))).table = some [] :=
  ⟨by decide,
    ((C1_transaction_scope (some [[SqlValue.int 1]]) [] ["id"] [["7"]]).2.2.2.2.2
      (by decide) 0).1⟩

/-- C8: a missing or unreadable input file, a file with no header row, and a
header that is empty or entirely blank each produce their own distinct error
and exit code 1, without the destination database being opened, created or
modified. -/
theorem C8_input_errors_leave_db_untouched (init : Option (List (List SqlValue)))
    (fp : Option FailPoint) (hdr : List String) (dataRows : List (List String)) :
    mainImport CsvInput.missing init fp =
      ⟨1, some ImportError.fileNotFound, false, init⟩ ∧
    mainImport CsvInput.unreadable init fp =
      ⟨1, some ImportError.openFailed, false, init⟩ ∧
    mainImport (CsvInput.content []) init fp =
      ⟨1, some ImportError.emptyCsv, false, init⟩ ∧
    (blankHeader hdr = true →
      mainImport (CsvInput.content (hdr :: dataRows)) init fp =
        ⟨1, some ImportError.blankHeader, false, init⟩) ∧
    [ImportError.fileNotFound, ImportError.openFailed, ImportError.emptyCsv,
      ImportError.blankHeader].Nodup := by
  refine ⟨rfl, rfl, rfl, ?_, by decide⟩
  intro hblank
  unfold mainImport
  dsimp only
  rw [if_pos hblank]

/-- C8 witness: an all-blank header with a pre-existing table. -/
theorem C8_input_errors_leave_db_untouched_witness :
    blankHeader ["", "  "] = true ∧
    mainImport (CsvInput.content [["", "  "], ["1"]]) (some [[SqlValue.int 5]]) none =
      ⟨1, some ImportError.blankHeader, false, some [[SqlValue.int 5]]⟩ :=
  ⟨by decide,
    (C8_input_errors_leave_db_untouched (some [[SqlValue.int 5]]) none ["", "  "]
      [["1"]]).2.2.2.1 (by decide)⟩

end CsvToSqlite

namespace CountyApi

/-- JSON values a request body field can hold; objects and arrays are never
compared or stringified by the handler paths modelled here. -/
inductive JVal
  | jstr (s : String)
  | jnum (n : Int)
  | jbool (b : Bool)
  | jnull
deriving DecidableEq, Repr

/-- Python str() of an int. -/
def intStr (n : Int) : String :=
  if n < 0 then "-" ++ CsvToSqlite.natStr n.natAbs else CsvToSqlite.natStr n.natAbs

/-- Python str() of a JSON value as the handler sees it. -/
def pyStr : JVal → String
  | JVal.jstr s => s
  | JVal.jnum n => intStr n
  | JVal.jbool true => "True"
  | JVal.jbool false => "False"
  | JVal.jnull => "None"

/-- payload.get(key): None both when the key is absent and when it maps to
JSON null, the two being indistinguishable to the Python code. -/
def getVal (p : List (String × JVal)) (k : String) : Option JVal :=
  match p.lookup k with
  | some JVal.jnull => none
  | some v => some v
  | none => none

/-- re.fullmatch of five digits against str(zip_value), ASCII digit model. -/
def isFiveDigits (s : String) : Bool :=
  s.data.length = 5 && s.data.all Char.isDigit

/-- Collapse every whitespace run to one space (the re.sub in
_normalize_measure_name). -/
def collapseWs : Bool → List Char → List Char
  | _, [] => []
  | prev, c :: cs =>
    if CsvToSqlite.pyIsSpace c then
      (if prev then collapseWs true cs else ' ' :: collapseWs true cs)
    else c :: collapseWs false cs

/-- _normalize_measure_name from the source: strip, lower, collapse
whitespace runs to single spaces. -/
def normalizeMeasure (name : String) : String :=
  String.mk (collapseWs false ((CsvToSqlite.pyStrip name).data.map Char.toLower))

/-- ALLOWED_MEASURE_NAMES from the source, verbatim. -/
def ALLOWED_MEASURE_NAMES : List String :=
  ["Violent crime rate", "Unemployment", "Children in poverty",
   "Diabetic screening", "Mammography screening", "Preventable hospital stays",
   "Uninsured", "Sexually transmitted infections", "Physical inactivity",
   "Adult obesity", "Premature Death", "Daily fine particulate matter"]

/-- ALLOWED_MEASURE_CANONICAL.get on the normalized input: the canonical
original spelling of an allowed measure, none otherwise (the canonical
strings are nonempty, so Python truthiness agrees with none-ness). -/
def canonicalMeasure (input : String) : Option String :=
  ALLOWED_MEASURE_NAMES.find? (fun m => normalizeMeasure m = normalizeMeasure input)

/-- Control-flow outcome of the county_data handler; the query outcome
carries the validated parameters that reach the database. -/
inductive ApiResponse
  | notJson
  | invalidBody
  | teapot
  | missingParams
  | badZip
  | badMeasure
  | query (zip : String) (measure : String)
deriving DecidableEq, Repr

/-- HTTP status of each pre-database outcome; the query outcome's status (200,
404 or 500) depends on the rows the database returns. -/
def statusOf : ApiResponse → Option Nat
  | ApiResponse.notJson => some 400
  | ApiResponse.invalidBody => some 400
  | ApiResponse.teapot => some 418
  | ApiResponse.missingParams => some 400
  | ApiResponse.badZip => some 400
  | ApiResponse.badMeasure => some 400
  | ApiResponse.query _ _ => none

/-- county_data from the source (the handler bodies of index.py and
api/index.py are identical on these paths): Content-Type check, body check,
the coffee equals teapot check, presence validation, zip format, measure
allow-list, then the parameterized join query. -/
def county_data (isJson : Bool) (body : Option (List (String × JVal))) : ApiResponse :=
  if !isJson then ApiResponse.notJson
  else
    match body with
    | none => ApiResponse.invalidBody
    | some p =>
      if getVal p "coffee" = some (JVal.jstr "teapot") then ApiResponse.teapot
      else
        match getVal p "zip", getVal p "measure_name" with
        | some zv, some mv =>
          if !(isFiveDigits (pyStr zv)) then ApiResponse.badZip
          else
            match canonicalMeasure (pyStr mv) with
            | none => ApiResponse.badMeasure
            | some canonical => ApiResponse.query (pyStr zv) canonical
        | _, _ => ApiResponse.missingParams

/-- C10: a JSON object body carrying coffee = teapot short-circuits to
status 418 before presence or format validation of zip and measure_name, so
such a request never yields a validation outcome and never reaches the
database query, whatever the other fields hold. -/
theorem C10_teapot_shortcircuit (p : List (String × JVal))
    (hcoffee : getVal p "coffee" = some (JVal.jstr "teapot")) :
    county_data true (some p) = ApiResponse.teapot ∧
    statusOf (county_data true (some p)) = some 418 ∧
    (∀ z m, county_data true (some p) ≠ ApiResponse.query z m) ∧
    county_data true (some p) ≠ ApiResponse.missingParams ∧
    county_data true (some p) ≠ ApiResponse.badZip ∧
    county_data true (some p) ≠ ApiResponse.badMeasure := by
  have h : county_data true (some p) = ApiResponse.teapot := by
    unfold county_data
    dsimp only
    rw [if_pos hcoffee]
    rfl
  refine ⟨h, by rw [h]; rfl, ?_, ?_, ?_, ?_⟩
  · intro z m
    rw [h]
    intro hq
    exact ApiResponse.noConfusion hq
  · rw [h]
    intro hq
    exact ApiResponse.noConfusion hq
  · rw [h]
    intro hq
    exact ApiResponse.noConfusion hq
  · rw [h]
    intro hq
    exact ApiResponse.noConfusion hq

/-- C10 witness: a body with coffee = teapot and no zip or measure_name. -/
theorem C10_teapot_shortcircuit_witness :
    getVal [("coffee", JVal.jstr "teapot")] "coffee" = some (JVal.jstr "teapot") ∧
    county_data true (some [("coffee", JVal.jstr "teapot")]) = ApiResponse.teapot ∧
    statusOf (county_data true (some [("coffee", JVal.jstr "teapot")])) = some 418 :=
  ⟨by decide,
    (C10_teapot_shortcircuit [("coffee", JVal.jstr "teapot")] (by decide)).1,
    (C10_teapot_shortcircuit [("coffee", JVal.jstr "teapot")] (by decide)).2.1⟩

end CountyApi

